import Mathlib

/-
Shallow embedding of the commit-data extraction layer of `src/jagt/app.py`.

The source shells out to the external `git` tool and parses its output.
Here the tool's combined stdout+stderr text and exit code are modelled as
explicit inputs (`ToolResult`), and the Python string operations used by the
parser (`bytes.split(sep, maxsplit)`, `bytes.splitlines`, `str.lstrip`,
`str.strip`, slicing) are embedded as Lean functions on `String`/`List Char`.
The source splits raw bytes and then UTF-8 decodes each segment; since the
split separators (NUL, LF, CR) are single-byte code points, splitting the
decoded text is equivalent for valid UTF-8 input, which is what we model.
Python's `str.lstrip()`/`str.strip()` strip a slightly larger (Unicode)
whitespace set; we model the ASCII whitespace characters, and every concrete
input used below stays within that set.
-/

/-- The NUL field separator (`%x00` in the git format strings). -/
def NUL : Char := '\x00'

/-- A one-character string holding the NUL separator. -/
def nulStr : String := String.mk [NUL]

/-- ASCII whitespace, as stripped by Python's `str.lstrip`/`str.strip`. -/
def isSpaceChar (c : Char) : Bool :=
  c = ' ' || c = '\t' || c = '\n' || c = '\r' || c = '\x0b' || c = '\x0c'

/-- Core of Python's `s.split(sep, maxsplit)` for a single-character
separator `c`: `acc` holds the (reversed) characters of the current field,
and the `Nat` argument is the remaining split budget.  When the budget is
exhausted the rest of the input becomes the final field verbatim. -/
def pySplitAux (c : Char) : Nat → List Char → List Char → List (List Char)
  | _, acc, [] => [acc.reverse]
  | 0, acc, x :: xs => [acc.reverse ++ x :: xs]
  | n + 1, acc, x :: xs =>
    if x = c then acc.reverse :: pySplitAux c n [] xs
    else pySplitAux c (n + 1) (x :: acc) xs

/-- Python's `s.split(sep, maxsplit)` for a one-character separator. -/
def pySplit (s : String) (c : Char) (maxsplit : Nat) : List String :=
  (pySplitAux c maxsplit [] s.data).map String.mk

/-- Python's `s.lstrip()`. -/
def pyLstrip (s : String) : String :=
  String.mk (s.data.dropWhile isSpaceChar)

/-- Python's `s.strip()`: drop whitespace from the left, then from the
right (`List.rdropWhile` drops from the tail end). -/
def pyStrip (s : String) : String :=
  String.mk (List.rdropWhile isSpaceChar (s.data.dropWhile isSpaceChar))

/-- Core of Python's `bytes.splitlines()`: lines are terminated by LF, CR,
or CRLF, terminators are not kept, and there is no trailing empty line.
The `Bool` flag records that the previous character was a CR, so that an
immediately following LF is consumed silently. -/
def pySplitlinesAux : Bool → List Char → List Char → List (List Char)
  | _, acc, [] => if acc.isEmpty then [] else [acc.reverse]
  | skipLF, acc, x :: xs =>
    if x = '\n' then
      if skipLF then pySplitlinesAux false acc xs
      else acc.reverse :: pySplitlinesAux false [] xs
    else if x = '\r' then acc.reverse :: pySplitlinesAux true [] xs
    else pySplitlinesAux false (x :: acc) xs

/-- Python's `bytes.splitlines()` on decoded text. -/
def pySplitlines (s : String) : List String :=
  (pySplitlinesAux false [] s.data).map String.mk

/-- One commit summary, as in the `LogEntry` dataclass. -/
structure LogEntry where
  hash_short : String
  date : String
  author_name : String
  subject : String
deriving DecidableEq, Repr

/-- Full details of one commit, as in the `CommitDetails` dataclass. -/
structure CommitDetails where
  hash : String
  date : String
  author_name : String
  author_email : String
  subject : String
  body : String
  short_stat : String
  diff : String
deriving DecidableEq, Repr

/-- The uncaught Python exceptions the parsing code can raise: a failing
`assert` (wrong NUL-segment count) or a `ValueError` (unpacking a
single-element `split("\n", maxsplit=1)` result into two names). -/
inductive ParseError where
  | assertionError
  | valueError
deriving DecidableEq, Repr

/-- The `GitCommandError` exception: subcommand name, the tool's exit
code, and the captured combined stdout+stderr text (the source stores the
decoded combined capture in its `stderr` attribute). -/
structure GitCommandError where
  command : String
  return_code : Int
  stderr : String
deriving DecidableEq, Repr

/-- Every way `git_log` / `git_show` can fail. -/
inductive GitError where
  | git (e : GitCommandError)
  | parse (e : ParseError)
deriving DecidableEq, Repr

/-- The outcome of one external `git` invocation: its exit code and the
captured combined stdout+stderr text. -/
structure ToolResult where
  returncode : Int
  output : String
deriving DecidableEq, Repr

/-- The per-line parsing step of `git_log`: split the line on NUL with
`maxsplit = 3`, assert exactly 4 fields, and build a `LogEntry`. -/
def parse_log_line (line : String) : Except ParseError LogEntry :=
  let split_info := pySplit line NUL 3
  if split_info.length = 4 then
    .ok ⟨split_info.getD 0 "", split_info.getD 1 "",
         split_info.getD 2 "", split_info.getD 3 ""⟩
  else .error .assertionError

/-- The loop of `git_log` over `output.splitlines()`: each line is parsed
in order; a failing assert aborts the whole call. -/
def git_log_parse : List String → Except ParseError (List LogEntry)
  | [] => .ok []
  | l :: ls =>
    match parse_log_line l with
    | .error e => .error e
    | .ok entry =>
      match git_log_parse ls with
      | .error e => .error e
      | .ok rest => .ok (entry :: rest)

/-- The parsing part of `git_log` applied to the tool's full output. -/
def git_log_output_parse (output : String) : Except ParseError (List LogEntry) :=
  git_log_parse (pySplitlines output)

/-- The parsing part of `git_show`: split the whole output on NUL with
`maxsplit = 6`, assert exactly 7 segments, take the first six as the
metadata fields, lstrip the 7th, split it at its first newline into the
short-stat line and the diff (a missing newline raises `ValueError` when
unpacking), and finally `strip()` the diff. -/
def git_show_parse (output : String) : Except ParseError CommitDetails :=
  let split_info := pySplit output NUL 6
  if split_info.length = 7 then
    let diff_info := pyLstrip (split_info.getD 6 "")
    let parts := pySplit diff_info '\n' 1
    if parts.length = 2 then
      .ok ⟨split_info.getD 0 "", split_info.getD 1 "", split_info.getD 2 "",
           split_info.getD 3 "", split_info.getD 4 "", split_info.getD 5 "",
           parts.getD 0 "", pyStrip (parts.getD 1 "")⟩
    else .error .valueError
  else .error .assertionError

/-- `git_log` as a function of the external tool's result: a non-zero exit
raises `GitCommandError("log", returncode, output)`; otherwise the output
is parsed. -/
def run_git_log (res : ToolResult) : Except GitError (List LogEntry) :=
  if res.returncode = 0 then
    match git_log_output_parse res.output with
    | .ok entries => .ok entries
    | .error e => .error (.parse e)
  else .error (.git ⟨"log", res.returncode, res.output⟩)

/-- `git_show` as a function of the external tool's result: a non-zero exit
raises `GitCommandError("show", returncode, output)`; otherwise the output
is parsed. -/
def run_git_show (res : ToolResult) : Except GitError CommitDetails :=
  if res.returncode = 0 then
    match git_show_parse res.output with
    | .ok details => .ok details
    | .error e => .error (.parse e)
  else .error (.git ⟨"show", res.returncode, res.output⟩)

/-- Outcome of `LogScreen.on_mount`: the handler catches only
`GitCommandError` and answers it with `app.exit(return_code=
error.return_code)` (`.ok (some c)`); on success it sets the entries and
leaves the app's `return_code` as `None` (`.ok none`); a parse failure
(the `assert` in `git_log`) is an exception the handler does not catch, so
it escapes the handler and crashes the app (`.error e`). -/
def log_screen_on_mount (res : ToolResult) : Except ParseError (Option Int) :=
  match run_git_log res with
  | .ok _ => .ok none
  | .error (.git e) => .ok (some e.return_code)
  | .error (.parse e) => .error e

/-- Outcome of the selection-change handler `update_commit_details_view`:
as with `on_mount`, only `GitCommandError` is caught and turned into
`app.exit(return_code=...)`; an `AssertionError` or `ValueError` from
`git_show`'s parsing escapes the handler and crashes the app. -/
def update_commit_details_exit (res : ToolResult) : Except ParseError (Option Int) :=
  match run_git_show res with
  | .ok _ => .ok none
  | .error (.git e) => .ok (some e.return_code)
  | .error (.parse e) => .error e

/-- The exit status computed by `run()` after a clean shutdown:
`sys.exit(app.return_code or 0)`, where `app.return_code` is `None` when
`app.exit` was never given a return code, and Python's `or` turns a falsy
(zero or `None`) value into `0`. -/
def run_exit_code : Option Int → Int
  | none => 0
  | some c => if c = 0 then 0 else c

/-- The process exit status of a whole session.  On a clean shutdown
(`.ok rc`) the `run()` wrapper executes `sys.exit(app.return_code or 0)`.
When a handler exception escapes (`.error`), the framework records the
crash: it sets the app's return code to 1 and re-raises the stored
exception out of `app.run()`, past the `sys.exit` line, so on either
mechanism the interpreter terminates with status 1. -/
def session_exit_code : Except ParseError (Option Int) → Int
  | .ok rc => run_exit_code rc
  | .error _ => 1

/-- The display-layer truncation bound `CommitDiffView.MAX_DIFF_CHARS`. -/
def MAX_DIFF_CHARS : Nat := 100000

/-- The display layer's `commit.diff[: self.MAX_DIFF_CHARS]`: Python
slicing of a `str` takes the first `MAX_DIFF_CHARS` characters. -/
def truncated_diff (commit : CommitDetails) : String :=
  String.mk (commit.diff.data.take MAX_DIFF_CHARS)

/-- State of the diff widget after `_update_syntax_content` runs: the
rendered text (a truncated copy) paired with the stored record, which the
method never mutates (`CommitDetails` is a frozen dataclass). -/
def update_diff_content (commit : CommitDetails) : String × CommitDetails :=
  (truncated_diff commit, commit)

/-- Encoding of one commit summary in the wire format requested by
`git_log`: the four fields joined by NUL. -/
def encode_log_line (a b c d : String) : String :=
  a ++ nulStr ++ b ++ nulStr ++ c ++ nulStr ++ d

/-- Join lines with LF, the way consecutive `format:` records appear in
the tool's output (no trailing newline). -/
def joinLines : List String → String
  | [] => ""
  | [l] => l
  | l :: ls => l ++ "\n" ++ joinLines ls

/-- Encoding of a `CommitDetails`-shaped record in the wire format
requested by `git_show`: the six metadata fields joined by NUL, a trailing
NUL, then the short-stat line, a newline, and the diff text. -/
def encode_details (d : CommitDetails) : String :=
  d.hash ++ nulStr ++ d.date ++ nulStr ++ d.author_name ++ nulStr ++
    d.author_email ++ nulStr ++ d.subject ++ nulStr ++ d.body ++ nulStr ++
    d.short_stat ++ "\n" ++ d.diff

/-- A field that can sit inside one line of the list wire format: it
contains no NUL (so fields and separators cannot be confused) and no line
terminator (so the line survives `splitlines`). -/
def lineSafe (s : String) : Prop :=
  ∀ ch ∈ s.data, ch ≠ NUL ∧ ch ≠ '\n' ∧ ch ≠ '\r'

instance (s : String) : Decidable (lineSafe s) := by
  unfold lineSafe; infer_instance

instance {ε α : Type} [DecidableEq ε] [DecidableEq α] : DecidableEq (Except ε α) := fun x y =>
  match x, y with
  | .ok a, .ok b => if h : a = b then isTrue (by rw [h]) else isFalse (by simp [h])
  | .error a, .error b => if h : a = b then isTrue (by rw [h]) else isFalse (by simp [h])
  | .ok _, .error _ => isFalse (by simp)
  | .error _, .ok _ => isFalse (by simp)

theorem string_data_append (a b : String) : (a ++ b).data = a.data ++ b.data := by
  cases a; cases b; rfl

theorem string_mk_data (s : String) : String.mk s.data = s := by
  cases s; rfl

theorem nulStr_data : nulStr.data = [NUL] := rfl

theorem pySplitAux_zero (c : Char) (acc l : List Char) :
    pySplitAux c 0 acc l = [acc.reverse ++ l] := by
  cases l <;> simp [pySplitAux]

theorem pySplitAux_cons_self (c : Char) (n : Nat) (acc xs : List Char) :
    pySplitAux c (n + 1) acc (c :: xs) = acc.reverse :: pySplitAux c n [] xs := by
  simp [pySplitAux]

theorem pySplitAux_cons_ne (c x : Char) (hx : x ≠ c) (n : Nat) (acc xs : List Char) :
    pySplitAux c (n + 1) acc (x :: xs) = pySplitAux c (n + 1) (x :: acc) xs := by
  simp [pySplitAux, hx]

theorem pySplitAux_sep (c : Char) (a : List Char) (ha : ∀ x ∈ a, x ≠ c)
    (n : Nat) (acc rest : List Char) :
    pySplitAux c (n + 1) acc (a ++ c :: rest)
      = (acc.reverse ++ a) :: pySplitAux c n [] rest := by
  induction a generalizing acc with
  | nil =>
    rw [List.nil_append, pySplitAux_cons_self]
    simp
  | cons x xs ih =>
    have hx : x ≠ c := ha x (by simp)
    rw [List.cons_append, pySplitAux_cons_ne c x hx]
    rw [ih (fun y hy => ha y (by simp [hy]))]
    simp

theorem pySplitAux_nosep (c : Char) (a : List Char) (ha : ∀ x ∈ a, x ≠ c)
    (n : Nat) (acc : List Char) :
    pySplitAux c n acc a = [acc.reverse ++ a] := by
  induction a generalizing acc n with
  | nil => cases n <;> simp [pySplitAux]
  | cons x xs ih =>
    cases n with
    | zero => simp [pySplitAux]
    | succ m =>
      have hx : x ≠ c := ha x (by simp)
      rw [pySplitAux_cons_ne c x hx]
      rw [ih (fun y hy => ha y (by simp [hy]))]
      simp

theorem pySplitAux_length (c : Char) (l : List Char) (n : Nat) (acc : List Char) :
    (pySplitAux c n acc l).length = min (l.count c) n + 1 := by
  induction l generalizing acc n with
  | nil => cases n <;> simp [pySplitAux]
  | cons x xs ih =>
    cases n with
    | zero => simp [pySplitAux]
    | succ m =>
      by_cases hx : x = c
      · subst hx
        rw [pySplitAux_cons_self, List.count_cons_self]
        simp only [List.length_cons, ih]
        omega
      · rw [pySplitAux_cons_ne c x hx, List.count_cons_of_ne (Ne.symm hx), ih]

theorem pySplit_length (s : String) (c : Char) (m : Nat) :
    (pySplit s c m).length = min (s.data.count c) m + 1 := by
  simp [pySplit, pySplitAux_length]

theorem pySplitlinesAux_nosep (a : List Char) (ha : ∀ x ∈ a, x ≠ '\n' ∧ x ≠ '\r')
    (acc : List Char) (hne : acc.reverse ++ a ≠ []) :
    pySplitlinesAux false acc a = [acc.reverse ++ a] := by
  induction a generalizing acc with
  | nil =>
    have hacc : ¬acc.isEmpty := by
      simp only [List.append_nil] at hne
      simpa [List.isEmpty_iff] using fun h => hne (by simp [h])
    simp [pySplitlinesAux, hacc]
  | cons x xs ih =>
    have hx := ha x (by simp)
    rw [show pySplitlinesAux false acc (x :: xs) = pySplitlinesAux false (x :: acc) xs from by
      simp [pySplitlinesAux, hx.1, hx.2]]
    rw [ih (fun y hy => ha y (by simp [hy])) (x :: acc) (by simp)]
    simp

theorem pySplitlinesAux_sep (a : List Char) (ha : ∀ x ∈ a, x ≠ '\n' ∧ x ≠ '\r')
    (acc rest : List Char) :
    pySplitlinesAux false acc (a ++ '\n' :: rest)
      = (acc.reverse ++ a) :: pySplitlinesAux false [] rest := by
  induction a generalizing acc with
  | nil => simp [pySplitlinesAux]
  | cons x xs ih =>
    have hx := ha x (by simp)
    rw [List.cons_append]
    rw [show pySplitlinesAux false acc (x :: (xs ++ '\n' :: rest))
        = pySplitlinesAux false (x :: acc) (xs ++ '\n' :: rest) from by
      simp [pySplitlinesAux, hx.1, hx.2]]
    rw [ih (fun y hy => ha y (by simp [hy]))]
    simp

theorem pySplitlines_joinLines (lines : List String)
    (h : ∀ l ∈ lines, l.data ≠ [] ∧ ∀ x ∈ l.data, x ≠ '\n' ∧ x ≠ '\r') :
    pySplitlines (joinLines lines) = lines := by
  induction lines with
  | nil => rfl
  | cons l ls ih =>
    cases ls with
    | nil =>
      obtain ⟨hne, hsafe⟩ := h l (by simp)
      unfold pySplitlines joinLines
      rw [pySplitlinesAux_nosep l.data hsafe [] (by simpa using hne)]
      simp [string_mk_data]
    | cons l2 ls2 =>
      obtain ⟨hne, hsafe⟩ := h l (by simp)
      unfold pySplitlines
      have hdata : (joinLines (l :: l2 :: ls2)).data
          = l.data ++ '\n' :: (joinLines (l2 :: ls2)).data := by
        show (l ++ "\n" ++ joinLines (l2 :: ls2)).data = _
        simp [string_data_append]
      rw [hdata, pySplitlinesAux_sep l.data hsafe]
      have ihapp := ih (fun r hr => h r (by simp [hr]))
      unfold pySplitlines at ihapp
      simp only [List.map_cons, List.reverse_nil, List.nil_append, ihapp, string_mk_data]

theorem encode_log_line_data (a b c d : String) :
    (encode_log_line a b c d).data
      = a.data ++ NUL :: (b.data ++ NUL :: (c.data ++ NUL :: d.data)) := by
  simp [encode_log_line, string_data_append, nulStr_data]

theorem parse_log_line_encode (a b c d : String)
    (hA : ∀ x ∈ a.data, x ≠ NUL) (hB : ∀ x ∈ b.data, x ≠ NUL)
    (hC : ∀ x ∈ c.data, x ≠ NUL) :
    parse_log_line (encode_log_line a b c d) = .ok ⟨a, b, c, d⟩ := by
  have hsplit : pySplit (encode_log_line a b c d) NUL 3 = [a, b, c, d] := by
    unfold pySplit
    rw [encode_log_line_data]
    rw [pySplitAux_sep NUL a.data hA 2 [] _]
    rw [pySplitAux_sep NUL b.data hB 1 [] _]
    rw [pySplitAux_sep NUL c.data hC 0 [] _]
    rw [pySplitAux_zero]
    simp [string_mk_data]
  unfold parse_log_line
  rw [hsplit]
  simp

theorem git_log_parse_encode (recs : List (String × String × String × String))
    (h : ∀ r ∈ recs, lineSafe r.1 ∧ lineSafe r.2.1 ∧ lineSafe r.2.2.1 ∧ lineSafe r.2.2.2) :
    git_log_parse (recs.map fun r => encode_log_line r.1 r.2.1 r.2.2.1 r.2.2.2)
      = .ok (recs.map fun r => LogEntry.mk r.1 r.2.1 r.2.2.1 r.2.2.2) := by
  induction recs with
  | nil => rfl
  | cons r rs ih =>
    obtain ⟨h1, h2, h3, _⟩ := h r (by simp)
    simp only [List.map_cons]
    unfold git_log_parse
    rw [parse_log_line_encode r.1 r.2.1 r.2.2.1 r.2.2.2
      (fun x hx => (h1 x hx).1) (fun x hx => (h2 x hx).1) (fun x hx => (h3 x hx).1)]
    rw [ih (fun q hq => h q (by simp [hq]))]

theorem encode_log_line_safe (a b c d : String)
    (hA : lineSafe a) (hB : lineSafe b) (hC : lineSafe c) (hD : lineSafe d) :
    (encode_log_line a b c d).data ≠ [] ∧
      ∀ x ∈ (encode_log_line a b c d).data, x ≠ '\n' ∧ x ≠ '\r' := by
  rw [encode_log_line_data]
  refine ⟨by simp, ?_⟩
  intro x hx
  have hN : NUL ≠ '\n' ∧ NUL ≠ '\r' := by decide
  simp only [List.mem_append, List.mem_cons] at hx
  rcases hx with h | rfl | h | rfl | h | rfl | h
  · exact ⟨(hA x h).2.1, (hA x h).2.2⟩
  · exact hN
  · exact ⟨(hB x h).2.1, (hB x h).2.2⟩
  · exact hN
  · exact ⟨(hC x h).2.1, (hC x h).2.2⟩
  · exact hN
  · exact ⟨(hD x h).2.1, (hD x h).2.2⟩

theorem git_log_output_parse_encode (recs : List (String × String × String × String))
    (h : ∀ r ∈ recs, lineSafe r.1 ∧ lineSafe r.2.1 ∧ lineSafe r.2.2.1 ∧ lineSafe r.2.2.2) :
    git_log_output_parse
        (joinLines (recs.map fun r => encode_log_line r.1 r.2.1 r.2.2.1 r.2.2.2))
      = .ok (recs.map fun r => LogEntry.mk r.1 r.2.1 r.2.2.1 r.2.2.2) := by
  unfold git_log_output_parse
  rw [pySplitlines_joinLines]
  · exact git_log_parse_encode recs h
  · intro l hl
    simp only [List.mem_map] at hl
    obtain ⟨r, hr, rfl⟩ := hl
    obtain ⟨h1, h2, h3, h4⟩ := h r hr
    exact encode_log_line_safe r.1 r.2.1 r.2.2.1 r.2.2.2 h1 h2 h3 h4

/-- C1: for every synthetic tool output consisting of N well-formed commit
lines (each line exactly four NUL-separated fields, N arbitrary, including
zero), the parsing loop of `git_log` returns exactly N `LogEntry` records in
the same order as the input lines, with each record's four fields equal to
the NUL-separated segments of the corresponding line. -/
theorem c1_list_commits_wellformed
    (recs : List (String × String × String × String))
    (h : ∀ r ∈ recs, lineSafe r.1 ∧ lineSafe r.2.1 ∧ lineSafe r.2.2.1 ∧ lineSafe r.2.2.2) :
    git_log_output_parse
        (joinLines (recs.map fun r => encode_log_line r.1 r.2.1 r.2.2.1 r.2.2.2))
      = .ok (recs.map fun r => LogEntry.mk r.1 r.2.1 r.2.2.1 r.2.2.2) :=
  git_log_output_parse_encode recs h

/-- Witness for C1, on the spec's own two-line example. -/
theorem c1_list_commits_wellformed_witness :
    git_log_output_parse
        "abc123\x002024-01-01\x00Alice\x00Fix bug\ndef456\x002024-01-02\x00Bob\x00Add feature"
      = .ok [⟨"abc123", "2024-01-01", "Alice", "Fix bug"⟩,
             ⟨"def456", "2024-01-02", "Bob", "Add feature"⟩] := by
  have h := c1_list_commits_wellformed
    [("abc123", "2024-01-01", "Alice", "Fix bug"),
     ("def456", "2024-01-02", "Bob", "Add feature")] (by decide)
  exact (by decide :
      joinLines
        (([("abc123", "2024-01-01", "Alice", "Fix bug"),
           ("def456", "2024-01-02", "Bob", "Add feature")] :
          List (String × String × String × String)).map
          fun r => encode_log_line r.1 r.2.1 r.2.2.1 r.2.2.2)
        = "abc123\x002024-01-01\x00Alice\x00Fix bug\ndef456\x002024-01-02\x00Bob\x00Add feature") ▸ h

/-- Counterexample for C4: a list line with four NUL bytes (more than three
separators) does not hit the assertion; `maxsplit=3` folds the extra NUL
into the subject field and the line parses silently. -/
theorem c4_counterexample :
    parse_log_line "a\x00b\x00c\x00d\x00e" = .ok ⟨"a", "b", "c", "d\x00e"⟩ ∧
      parse_log_line "a\x00b\x00c\x00d\x00e" ≠ .error .assertionError := by
  constructor
  · decide
  · decide

/-- C4 (amended): a list line with fewer than three NUL bytes fails the
segment-count assertion; a line with three or more NUL bytes always splits
into exactly 4 fields (extra NULs stay inside the fourth field) and parses
without assertion failure.  Analogously, a detail output with fewer than six
NUL bytes fails `git_show`'s assertion, and one with six or more never
does. -/
theorem c4_segment_count_amended :
    (∀ line : String, line.data.count NUL < 3 →
      parse_log_line line = .error .assertionError) ∧
    (∀ line : String, 3 ≤ line.data.count NUL →
      ∃ e, parse_log_line line = .ok e) ∧
    (∀ output : String, output.data.count NUL < 6 →
      git_show_parse output = .error .assertionError) ∧
    (∀ output : String, 6 ≤ output.data.count NUL →
      git_show_parse output ≠ .error .assertionError) := by
  refine ⟨?_, ?_, ?_, ?_⟩
  · intro line hlt
    have h4 : (pySplit line NUL 3).length ≠ 4 := by rw [pySplit_length]; omega
    simp only [parse_log_line, if_neg h4]
  · intro line hge
    have h4 : (pySplit line NUL 3).length = 4 := by rw [pySplit_length]; omega
    exact ⟨⟨(pySplit line NUL 3).getD 0 "", (pySplit line NUL 3).getD 1 "",
            (pySplit line NUL 3).getD 2 "", (pySplit line NUL 3).getD 3 ""⟩,
      by simp only [parse_log_line, if_pos h4]⟩
  · intro output hlt
    have h7 : (pySplit output NUL 6).length ≠ 7 := by rw [pySplit_length]; omega
    simp only [git_show_parse, if_neg h7]
  · intro output hge
    have h7 : (pySplit output NUL 6).length = 7 := by rw [pySplit_length]; omega
    simp only [git_show_parse, if_pos h7]
    split
    · simp
    · simp

/-- Witness for C4 (amended), at concrete inputs on all four branches. -/
theorem c4_segment_count_amended_witness :
    parse_log_line "ab" = .error .assertionError ∧
      (∃ e, parse_log_line "a\x00b\x00c\x00d" = .ok e) ∧
      git_show_parse "a\x00b" = .error .assertionError ∧
      git_show_parse "a\x00b\x00c\x00d\x00e\x00f\x00" ≠ .error .assertionError :=
  ⟨c4_segment_count_amended.1 "ab" (by decide),
   c4_segment_count_amended.2.1 "a\x00b\x00c\x00d" (by decide),
   c4_segment_count_amended.2.2.1 "a\x00b" (by decide),
   c4_segment_count_amended.2.2.2 "a\x00b\x00c\x00d\x00e\x00f\x00" (by decide)⟩

/-- Counterexample for C9: a synthetic output whose lines are well-formed
but carry empty and duplicated short-hash segments parses successfully into
a result list with empty, non-unique `hash_short` fields; `git_log` imposes
no such invariant. -/
theorem c9_counterexample :
    git_log_output_parse "\x00d\x00a\x00s\n\x00d\x00a\x00s"
        = .ok [⟨"", "d", "a", "s"⟩, ⟨"", "d", "a", "s"⟩] ∧
      (LogEntry.mk "" "d" "a" "s").hash_short = "" ∧
      ¬ (([LogEntry.mk "" "d" "a" "s", LogEntry.mk "" "d" "a" "s"].map
            fun e => e.hash_short).Nodup) := by
  refine ⟨by decide, rfl, by decide⟩

/-- C9 (amended): the parsing loop of `git_log` copies the short-hash
segment of each line verbatim, so whenever the tool's output lines carry
non-empty, pairwise-distinct short-hash segments (as the real tool
guarantees within one listing), every returned `LogEntry.hash_short` is
non-empty and unique within that result list. -/
theorem c9_short_hash_amended
    (recs : List (String × String × String × String))
    (h : ∀ r ∈ recs, lineSafe r.1 ∧ lineSafe r.2.1 ∧ lineSafe r.2.2.1 ∧ lineSafe r.2.2.2)
    (hne : ∀ r ∈ recs, r.1 ≠ "")
    (hnd : (recs.map fun r => r.1).Nodup) :
    git_log_output_parse
        (joinLines (recs.map fun r => encode_log_line r.1 r.2.1 r.2.2.1 r.2.2.2))
      = .ok (recs.map fun r => LogEntry.mk r.1 r.2.1 r.2.2.1 r.2.2.2) ∧
    (∀ e ∈ recs.map fun r => LogEntry.mk r.1 r.2.1 r.2.2.1 r.2.2.2,
      e.hash_short ≠ "") ∧
    ((recs.map fun r => LogEntry.mk r.1 r.2.1 r.2.2.1 r.2.2.2).map
        fun e => e.hash_short).Nodup := by
  refine ⟨git_log_output_parse_encode recs h, ?_, ?_⟩
  · intro e he
    simp only [List.mem_map] at he
    obtain ⟨r, hr, rfl⟩ := he
    exact hne r hr
  · have hmm : ((recs.map fun r => LogEntry.mk r.1 r.2.1 r.2.2.1 r.2.2.2).map
        fun e => e.hash_short) = recs.map fun r => r.1 := by
      simp [List.map_map, Function.comp]
    rw [hmm]
    exact hnd

/-- Witness for C9 (amended), at a concrete two-commit output. -/
theorem c9_short_hash_amended_witness :
    git_log_output_parse "aa\x00d1\x00n1\x00s1\nbb\x00d2\x00n2\x00s2"
        = .ok [⟨"aa", "d1", "n1", "s1"⟩, ⟨"bb", "d2", "n2", "s2"⟩] ∧
      (∀ e ∈ [LogEntry.mk "aa" "d1" "n1" "s1", LogEntry.mk "bb" "d2" "n2" "s2"],
        e.hash_short ≠ "") ∧
      (([LogEntry.mk "aa" "d1" "n1" "s1", LogEntry.mk "bb" "d2" "n2" "s2"].map
          fun e => e.hash_short).Nodup) := by
  have h := c9_short_hash_amended
    [("aa", "d1", "n1", "s1"), ("bb", "d2", "n2", "s2")]
    (by decide) (by decide) (by decide)
  exact (by decide :
      joinLines
        (([("aa", "d1", "n1", "s1"), ("bb", "d2", "n2", "s2")] :
          List (String × String × String × String)).map
          fun r => encode_log_line r.1 r.2.1 r.2.2.1 r.2.2.2)
        = "aa\x00d1\x00n1\x00s1\nbb\x00d2\x00n2\x00s2") ▸ h

/-- A sample accepted detail output and its decoded record, used to
exercise the `git_show` decomposition on concrete data. -/
def show_example_output : String := "h\x00d\x00an\x00ae\x00s\x00b\x00stat\nDIFF"

/-- The record `git_show` decodes from `show_example_output`. -/
def show_example_details : CommitDetails :=
  ⟨"h", "d", "an", "ae", "s", "b", "stat", "DIFF"⟩

/-- Counterexample for C2: on an accepted output whose trailing segment is
"stat\nDIFF\n", the text after the first newline is "DIFF\n", but the
stored diff field is "DIFF" — the code additionally strips the diff, so
the diff field is not the text after the newline. -/
theorem c2_counterexample :
    git_show_parse "h\x00d\x00an\x00ae\x00s\x00b\x00stat\nDIFF\x0a"
        = .ok ⟨"h", "d", "an", "ae", "s", "b", "stat", "DIFF"⟩ ∧
      (pySplit (pyLstrip ((pySplit "h\x00d\x00an\x00ae\x00s\x00b\x00stat\nDIFF\x0a"
          NUL 6).getD 6 "")) '\n' 1).getD 1 "" = "DIFF\x0a" ∧
      (CommitDetails.mk "h" "d" "an" "ae" "s" "b" "stat" "DIFF").diff ≠ "DIFF\x0a" := by
  refine ⟨by decide, by decide, by decide⟩

/-- C2 (amended): every output accepted by `git_show` is split on NUL into
exactly 7 segments; the first six become the six metadata fields, and the
7th segment, after stripping its leading whitespace, is split at its first
newline into the short-stat field (before the newline) and the diff field,
which is the text after that newline with leading and trailing whitespace
stripped. -/
theorem c2_show_decomposition_amended (output : String) (d : CommitDetails)
    (hok : git_show_parse output = .ok d) :
    (pySplit output NUL 6).length = 7 ∧
    d.hash = (pySplit output NUL 6).getD 0 "" ∧
    d.date = (pySplit output NUL 6).getD 1 "" ∧
    d.author_name = (pySplit output NUL 6).getD 2 "" ∧
    d.author_email = (pySplit output NUL 6).getD 3 "" ∧
    d.subject = (pySplit output NUL 6).getD 4 "" ∧
    d.body = (pySplit output NUL 6).getD 5 "" ∧
    (pySplit (pyLstrip ((pySplit output NUL 6).getD 6 "")) '\n' 1).length = 2 ∧
    d.short_stat
      = (pySplit (pyLstrip ((pySplit output NUL 6).getD 6 "")) '\n' 1).getD 0 "" ∧
    d.diff
      = pyStrip ((pySplit (pyLstrip ((pySplit output NUL 6).getD 6 "")) '\n' 1).getD 1 "") := by
  by_cases h7 : (pySplit output NUL 6).length = 7
  · by_cases h2 : (pySplit (pyLstrip ((pySplit output NUL 6).getD 6 "")) '\n' 1).length = 2
    · simp only [git_show_parse, if_pos h7, if_pos h2, Except.ok.injEq] at hok
      subst hok
      exact ⟨h7, rfl, rfl, rfl, rfl, rfl, rfl, h2, rfl, rfl⟩
    · simp only [git_show_parse, if_pos h7, if_neg h2] at hok
      exact Except.noConfusion hok
  · simp only [git_show_parse, if_neg h7] at hok
    exact Except.noConfusion hok

/-- Witness for C2 (amended), at a concrete accepted output. -/
theorem c2_show_decomposition_amended_witness :
    (pySplit show_example_output NUL 6).length = 7 ∧
    show_example_details.hash = (pySplit show_example_output NUL 6).getD 0 "" ∧
    show_example_details.date = (pySplit show_example_output NUL 6).getD 1 "" ∧
    show_example_details.author_name = (pySplit show_example_output NUL 6).getD 2 "" ∧
    show_example_details.author_email = (pySplit show_example_output NUL 6).getD 3 "" ∧
    show_example_details.subject = (pySplit show_example_output NUL 6).getD 4 "" ∧
    show_example_details.body = (pySplit show_example_output NUL 6).getD 5 "" ∧
    (pySplit (pyLstrip ((pySplit show_example_output NUL 6).getD 6 "")) '\n' 1).length = 2 ∧
    show_example_details.short_stat
      = (pySplit (pyLstrip ((pySplit show_example_output NUL 6).getD 6 "")) '\n' 1).getD 0 "" ∧
    show_example_details.diff
      = pyStrip ((pySplit (pyLstrip ((pySplit show_example_output NUL 6).getD 6 "")) '\n' 1).getD 1 "") :=
  c2_show_decomposition_amended show_example_output show_example_details (by decide)

/-- C3: `git_show` does not survive a well-formed 7-segment output whose
trailing segment is empty (as for a trivial merge or an empty commit): the
single-element result of splitting the lstripped empty segment at a newline
fails to unpack, raising `ValueError` instead of producing empty
`short_stat`/`diff` fields. -/
theorem c3_empty_trailing_segment_bug :
    git_show_parse "h\x00d\x00an\x00ae\x00s\x00b\x00" = .error .valueError := by
  decide

theorem newline_data : ("\n" : String).data = ['\n'] := rfl

/-- A string fit for a NUL-delimited field: it contains no NUL byte. -/
def nulFree (s : String) : Prop := ∀ x ∈ s.data, x ≠ NUL

instance (s : String) : Decidable (nulFree s) := by
  unfold nulFree; infer_instance

theorem dropWhile_append_eq_self (p : Char → Bool) (a rest : List Char)
    (hne : a ≠ []) (ha : a.dropWhile p = a) :
    (a ++ rest).dropWhile p = a ++ rest := by
  cases a with
  | nil => exact absurd rfl hne
  | cons y ys =>
    rw [List.dropWhile_cons] at ha
    by_cases hy : p y
    · rw [if_pos hy] at ha
      have hle := (List.dropWhile_suffix (l := ys) p).length_le
      rw [ha] at hle
      simp at hle
    · rw [List.cons_append, List.dropWhile_cons, if_neg hy]

theorem data_ne_nil_of_ne_empty (s : String) (h : s ≠ "") : s.data ≠ [] := by
  intro hd
  exact h (by rw [← string_mk_data s, hd])

theorem encode_details_data (d : CommitDetails) :
    (encode_details d).data
      = d.hash.data ++ NUL :: (d.date.data ++ NUL :: (d.author_name.data ++
          NUL :: (d.author_email.data ++ NUL :: (d.subject.data ++
          NUL :: (d.body.data ++ NUL :: (d.short_stat.data ++
          '\n' :: d.diff.data)))))) := by
  simp [encode_details, string_data_append, nulStr_data, newline_data,
    List.append_assoc]

/-- A record with an empty short-stat, whose encoding `git_show` cannot
decode back. -/
def round_trip_bad : CommitDetails := ⟨"h", "d", "an", "ae", "s", "b", "", "abc"⟩

/-- Counterexample for C5: every field of `round_trip_bad` is NUL-free and
its `short_stat` is empty — a case the claim explicitly includes — yet
decoding its encoding raises `ValueError` (the lstripped trailing segment
"\nabc" collapses to "abc", which has no newline to split at), so the
round trip does not reproduce the record. -/
theorem c5_counterexample :
    (∀ s ∈ [round_trip_bad.hash, round_trip_bad.date, round_trip_bad.author_name,
        round_trip_bad.author_email, round_trip_bad.subject, round_trip_bad.body,
        round_trip_bad.short_stat, round_trip_bad.diff], nulFree s) ∧
      round_trip_bad.short_stat = "" ∧
      git_show_parse (encode_details round_trip_bad) = .error .valueError ∧
      git_show_parse (encode_details round_trip_bad) ≠ .ok round_trip_bad := by
  refine ⟨by decide, rfl, by decide, by decide⟩

/-- C5 (amended): for every `CommitDetails`-shaped record whose string
fields are free of NUL bytes, whose short-stat is non-empty, contains no
newline and does not begin with whitespace, and whose diff carries no
leading or trailing whitespace, encoding it in the NUL-delimited wire
format and decoding it with `git_show`'s parsing logic reproduces every
field exactly — including when body or diff contain embedded newlines,
tabs, or Unicode text, and when diff or body is empty. -/
theorem c5_round_trip_amended (d : CommitDetails)
    (h1 : nulFree d.hash) (h2 : nulFree d.date) (h3 : nulFree d.author_name)
    (h4 : nulFree d.author_email) (h5 : nulFree d.subject) (h6 : nulFree d.body)
    (_h7 : nulFree d.short_stat) (_h8 : nulFree d.diff)
    (hstat_ne : d.short_stat ≠ "")
    (hstat_left : pyLstrip d.short_stat = d.short_stat)
    (hstat_nl : ∀ x ∈ d.short_stat.data, x ≠ '\n')
    (hdiff : pyStrip d.diff = d.diff) :
    git_show_parse (encode_details d) = .ok d := by
  have hsplit : pySplit (encode_details d) NUL 6
      = [d.hash, d.date, d.author_name, d.author_email, d.subject, d.body,
         String.mk (d.short_stat.data ++ '\n' :: d.diff.data)] := by
    unfold pySplit
    rw [encode_details_data]
    rw [pySplitAux_sep NUL d.hash.data h1 5 []]
    rw [pySplitAux_sep NUL d.date.data h2 4 []]
    rw [pySplitAux_sep NUL d.author_name.data h3 3 []]
    rw [pySplitAux_sep NUL d.author_email.data h4 2 []]
    rw [pySplitAux_sep NUL d.subject.data h5 1 []]
    rw [pySplitAux_sep NUL d.body.data h6 0 []]
    rw [pySplitAux_zero]
    simp [string_mk_data]
  have hstat_data : d.short_stat.data.dropWhile isSpaceChar = d.short_stat.data := by
    have := congrArg String.data hstat_left
    simpa [pyLstrip] using this
  have hlstrip : pyLstrip (String.mk (d.short_stat.data ++ '\n' :: d.diff.data))
      = String.mk (d.short_stat.data ++ '\n' :: d.diff.data) := by
    unfold pyLstrip
    rw [show (String.mk (d.short_stat.data ++ '\n' :: d.diff.data)).data
        = d.short_stat.data ++ '\n' :: d.diff.data from rfl]
    rw [dropWhile_append_eq_self isSpaceChar d.short_stat.data ('\n' :: d.diff.data)
      (data_ne_nil_of_ne_empty d.short_stat hstat_ne) hstat_data]
  have hparts : pySplit (String.mk (d.short_stat.data ++ '\n' :: d.diff.data)) '\n' 1
      = [d.short_stat, d.diff] := by
    unfold pySplit
    rw [show (String.mk (d.short_stat.data ++ '\n' :: d.diff.data)).data
        = d.short_stat.data ++ '\n' :: d.diff.data from rfl]
    rw [pySplitAux_sep '\n' d.short_stat.data hstat_nl 0 []]
    rw [pySplitAux_zero]
    simp [string_mk_data]
  simp only [git_show_parse, hsplit]
  simp only [List.getD_cons_zero, List.getD_cons_succ]
  rw [hlstrip, hparts]
  simp only [List.getD_cons_zero, List.getD_cons_succ, List.length_cons,
    List.length_nil, hdiff]
  rfl

/-- Witness for C5 (amended): a record with newlines, a tab, Unicode text
and an empty body round-trips exactly. -/
theorem c5_round_trip_amended_witness :
    git_show_parse
        (encode_details ⟨"abc", "2024-01-01", "Ann", "a@b.c", "naïve fix", "",
          "1 file changed", "diff --git a/x b/x\n+\tcafé\n-deux"⟩)
      = .ok ⟨"abc", "2024-01-01", "Ann", "a@b.c", "naïve fix", "",
          "1 file changed", "diff --git a/x b/x\n+\tcafé\n-deux"⟩ :=
  c5_round_trip_amended
    ⟨"abc", "2024-01-01", "Ann", "a@b.c", "naïve fix", "",
      "1 file changed", "diff --git a/x b/x\n+\tcafé\n-deux"⟩
    (by decide) (by decide) (by decide) (by decide) (by decide) (by decide)
    (by decide) (by decide) (by decide) (by decide) (by decide) (by decide)

/-- C6: whenever the external tool exits non-zero, `git_log` / `git_show`
raise a `GitCommandError` carrying exactly the invoked subcommand name
("log" or "show"), the tool's exit code, and the captured combined
stdout+stderr text; whenever the tool exits zero and its output parses,
no error is raised. -/
theorem c6_tool_error_contract :
    (∀ res : ToolResult, res.returncode ≠ 0 →
      run_git_log res = .error (.git ⟨"log", res.returncode, res.output⟩)) ∧
    (∀ res : ToolResult, res.returncode ≠ 0 →
      run_git_show res = .error (.git ⟨"show", res.returncode, res.output⟩)) ∧
    (∀ (res : ToolResult) (entries : List LogEntry), res.returncode = 0 →
      git_log_output_parse res.output = .ok entries →
        run_git_log res = .ok entries) ∧
    (∀ (res : ToolResult) (d : CommitDetails), res.returncode = 0 →
      git_show_parse res.output = .ok d → run_git_show res = .ok d) := by
  refine ⟨?_, ?_, ?_, ?_⟩
  · intro res h
    simp only [run_git_log, if_neg h]
  · intro res h
    simp only [run_git_show, if_neg h]
  · intro res entries h hp
    simp only [run_git_log, if_pos h, hp]
  · intro res d h hp
    simp only [run_git_show, if_pos h, hp]

/-- Witness for C6, with an injected failure and an injected success for
each of the two subcommands. -/
theorem c6_tool_error_contract_witness :
    run_git_log ⟨128, "fatal: not a git repository"⟩
        = .error (.git ⟨"log", 128, "fatal: not a git repository"⟩) ∧
      run_git_show ⟨1, "fatal: bad revision"⟩
        = .error (.git ⟨"show", 1, "fatal: bad revision"⟩) ∧
      run_git_log ⟨0, "aa\x00d\x00n\x00s"⟩ = .ok [⟨"aa", "d", "n", "s"⟩] ∧
      run_git_show ⟨0, show_example_output⟩ = .ok show_example_details :=
  ⟨c6_tool_error_contract.1 ⟨128, "fatal: not a git repository"⟩ (by decide),
   c6_tool_error_contract.2.1 ⟨1, "fatal: bad revision"⟩ (by decide),
   c6_tool_error_contract.2.2.1 ⟨0, "aa\x00d\x00n\x00s"⟩ [⟨"aa", "d", "n", "s"⟩]
     rfl (by decide),
   c6_tool_error_contract.2.2.2 ⟨0, show_example_output⟩ show_example_details
     rfl (by decide)⟩

/-- Counterexample for C7: a run in which the tool exits zero and no
`GitCommandError` is ever raised, but the detail parser crashes on a
merge-style payload with an empty trailing segment (the C3 input); the
uncaught `ValueError` terminates the process with status 1, not zero, so
"no fatal ExternalToolError implies exit status zero" is false. -/
theorem c7_counterexample :
    run_git_show ⟨0, "h\x00d\x00an\x00ae\x00s\x00b\x00"⟩
        = .error (.parse .valueError) ∧
      session_exit_code (update_commit_details_exit
        ⟨0, "h\x00d\x00an\x00ae\x00s\x00b\x00"⟩) = 1 ∧
      (1 : Int) ≠ 0 := by
  refine ⟨by decide, by decide, by decide⟩

/-- C7 (amended): when a fatal `GitCommandError` occurs — at the startup
listing or on a selection-change detail fetch — with the tool's
(non-zero) exit code C, the process terminates with exit status exactly
C; when the call succeeds, no exit code is recorded and the process exits
with zero; and when the tool exits zero but its output does not parse,
the uncaught handler exception terminates the process with status 1
(in particular non-zero), not the tool's exit code. -/
theorem c7_exit_status_amended :
    (∀ res : ToolResult, res.returncode ≠ 0 →
      session_exit_code (log_screen_on_mount res) = res.returncode) ∧
    (∀ res : ToolResult, res.returncode ≠ 0 →
      session_exit_code (update_commit_details_exit res) = res.returncode) ∧
    (∀ (res : ToolResult) (entries : List LogEntry),
      run_git_log res = .ok entries →
        session_exit_code (log_screen_on_mount res) = 0) ∧
    (∀ (res : ToolResult) (d : CommitDetails),
      run_git_show res = .ok d →
        session_exit_code (update_commit_details_exit res) = 0) ∧
    (∀ (res : ToolResult) (e : ParseError), res.returncode = 0 →
      git_log_output_parse res.output = .error e →
        session_exit_code (log_screen_on_mount res) = 1) ∧
    (∀ (res : ToolResult) (e : ParseError), res.returncode = 0 →
      git_show_parse res.output = .error e →
        session_exit_code (update_commit_details_exit res) = 1) := by
  refine ⟨?_, ?_, ?_, ?_, ?_, ?_⟩
  · intro res h
    simp only [log_screen_on_mount, run_git_log, if_neg h]
    simp only [session_exit_code, run_exit_code, if_neg h]
  · intro res h
    simp only [update_commit_details_exit, run_git_show, if_neg h]
    simp only [session_exit_code, run_exit_code, if_neg h]
  · intro res entries h
    simp only [log_screen_on_mount, h]
    rfl
  · intro res d h
    simp only [update_commit_details_exit, h]
    rfl
  · intro res e h0 hp
    simp only [log_screen_on_mount, run_git_log, if_pos h0, hp]
    rfl
  · intro res e h0 hp
    simp only [update_commit_details_exit, run_git_show, if_pos h0, hp]
    rfl

/-- Witness for C7 (amended): an injected failing exit code on each
handler, a successful run on each handler, and a crash-on-malformed-output
run on each handler. -/
theorem c7_exit_status_amended_witness :
    session_exit_code (log_screen_on_mount ⟨128, "fatal: not a git repository"⟩) = 128 ∧
      session_exit_code (update_commit_details_exit ⟨3, "fatal: ambiguous argument"⟩) = 3 ∧
      session_exit_code (log_screen_on_mount ⟨0, "aa\x00d\x00n\x00s"⟩) = 0 ∧
      session_exit_code (update_commit_details_exit ⟨0, show_example_output⟩) = 0 ∧
      session_exit_code (log_screen_on_mount ⟨0, "bad line"⟩) = 1 ∧
      session_exit_code (update_commit_details_exit
        ⟨0, "h\x00d\x00an\x00ae\x00s\x00b\x00stat"⟩) = 1 :=
  ⟨c7_exit_status_amended.1 ⟨128, "fatal: not a git repository"⟩ (by decide),
   c7_exit_status_amended.2.1 ⟨3, "fatal: ambiguous argument"⟩ (by decide),
   c7_exit_status_amended.2.2.1 ⟨0, "aa\x00d\x00n\x00s"⟩ [⟨"aa", "d", "n", "s"⟩]
     (by decide),
   c7_exit_status_amended.2.2.2.1 ⟨0, show_example_output⟩ show_example_details
     (by decide),
   c7_exit_status_amended.2.2.2.2.1 ⟨0, "bad line"⟩ .assertionError rfl (by decide),
   c7_exit_status_amended.2.2.2.2.2 ⟨0, "h\x00d\x00an\x00ae\x00s\x00b\x00stat"⟩
     .valueError rfl (by decide)⟩

/-- C8: when a commit's diff is longer than `MAX_DIFF_CHARS`, the display
layer renders exactly the first `MAX_DIFF_CHARS` characters of the diff;
a diff at or below the threshold is rendered in full; and the record the
widget keeps afterwards is the unmutated input, still holding the full
diff text. -/
theorem c8_diff_truncation (commit : CommitDetails) :
    (commit.diff.data.length > MAX_DIFF_CHARS →
      (truncated_diff commit).data = commit.diff.data.take MAX_DIFF_CHARS ∧
        (truncated_diff commit).data.length = MAX_DIFF_CHARS) ∧
    (commit.diff.data.length ≤ MAX_DIFF_CHARS →
      truncated_diff commit = commit.diff) ∧
    (update_diff_content commit).2 = commit ∧
    (update_diff_content commit).2.diff = commit.diff := by
  refine ⟨?_, ?_, rfl, rfl⟩
  · intro h
    refine ⟨rfl, ?_⟩
    simp only [truncated_diff, List.length_take]
    omega
  · intro h
    unfold truncated_diff
    rw [List.take_of_length_le h]

/-- A diff one character over the display threshold. -/
def big_commit : CommitDetails :=
  ⟨"h", "d", "an", "ae", "s", "b", "stat", String.mk (List.replicate 100001 'a')⟩

/-- Witness for C8, on a diff one character over the threshold. -/
theorem c8_diff_truncation_witness :
    big_commit.diff.data.length > MAX_DIFF_CHARS ∧
      (truncated_diff big_commit).data = big_commit.diff.data.take MAX_DIFF_CHARS ∧
      (truncated_diff big_commit).data.length = MAX_DIFF_CHARS := by
  have hlen : big_commit.diff.data.length > MAX_DIFF_CHARS := by
    rw [show big_commit.diff.data = List.replicate 100001 'a' from rfl]
    rw [List.length_replicate]
    rw [show MAX_DIFF_CHARS = 100000 from rfl]
    omega
  exact ⟨hlen, (c8_diff_truncation big_commit).1 hlen⟩

theorem pySplitAux_headD_no_sep (c : Char) (l : List Char) (n : Nat)
    (acc : List Char) (hacc : ∀ x ∈ acc, x ≠ c) :
    ∀ y ∈ (pySplitAux c (n + 1) acc l).headD [], y ≠ c := by
  induction l generalizing acc with
  | nil =>
    intro y hy
    simp only [pySplitAux, List.headD_cons] at hy
    exact hacc y (List.mem_reverse.mp hy)
  | cons x xs ih =>
    by_cases hx : x = c
    · subst hx
      rw [pySplitAux_cons_self]
      intro y hy
      simp only [List.headD_cons] at hy
      exact hacc y (List.mem_reverse.mp hy)
    · rw [pySplitAux_cons_ne c x hx]
      refine ih (x :: acc) ?_
      intro y hy
      rcases List.mem_cons.mp hy with rfl | hmem
      · exact hx
      · exact hacc y hmem

theorem pySplit_headD_no_sep (s : String) (c : Char) (n : Nat) :
    ∀ y ∈ ((pySplit s c (n + 1)).headD "").data, y ≠ c := by
  unfold pySplit
  cases haux : pySplitAux c (n + 1) [] s.data with
  | nil =>
    intro y hy
    simp at hy
  | cons r rs =>
    intro y hy
    have hr : ∀ y ∈ (pySplitAux c (n + 1) [] s.data).headD [], y ≠ c :=
      pySplitAux_headD_no_sep c s.data n [] (by simp)
    rw [haux] at hr
    simp only [List.map_cons, List.headD_cons] at hy ⊢
    exact hr y hy

theorem getD_zero_eq_headD (l : List String) : l.getD 0 "" = l.headD "" := by
  cases l <;> rfl

theorem dropWhile_rdropWhile_dropWhile (p : Char → Bool) (l : List Char) :
    (List.rdropWhile p (l.dropWhile p)).dropWhile p
      = List.rdropWhile p (l.dropWhile p) := by
  rw [List.dropWhile_eq_self_iff]
  intro hl
  have hpre := List.rdropWhile_prefix p (l.dropWhile p)
  have hlen : 0 < (l.dropWhile p).length := lt_of_lt_of_le hl hpre.length_le
  have hget : (List.rdropWhile p (l.dropWhile p)).get ⟨0, hl⟩
      = (l.dropWhile p).get ⟨0, hlen⟩ := by
    simpa using hpre.getElem (by simpa using hl)
  rw [hget]
  exact List.dropWhile_get_zero_not p l hlen

theorem pyStrip_idem (s : String) : pyStrip (pyStrip s) = pyStrip s := by
  unfold pyStrip
  rw [show (String.mk (List.rdropWhile isSpaceChar
      (s.data.dropWhile isSpaceChar))).data
      = List.rdropWhile isSpaceChar (s.data.dropWhile isSpaceChar) from rfl]
  rw [dropWhile_rdropWhile_dropWhile]
  rw [List.rdropWhile_idempotent]

/-- C10: every `CommitDetails` record returned by `git_show` has a diff
with no leading or trailing whitespace (it is a fixed point of `strip()`),
and a short-stat containing no newline, so whitespace at the boundaries of
the original diff payload is never preserved. -/
theorem c10_diff_short_stat_invariants (output : String) (d : CommitDetails)
    (hok : git_show_parse output = .ok d) :
    pyStrip d.diff = d.diff ∧ ∀ x ∈ d.short_stat.data, x ≠ '\n' := by
  by_cases h7 : (pySplit output NUL 6).length = 7
  · by_cases h2 : (pySplit (pyLstrip ((pySplit output NUL 6).getD 6 "")) '\n' 1).length = 2
    · simp only [git_show_parse, if_pos h7, if_pos h2, Except.ok.injEq] at hok
      subst hok
      constructor
      · exact pyStrip_idem _
      · show ∀ x ∈ ((pySplit (pyLstrip ((pySplit output NUL 6).getD 6 ""))
            '\n' 1).getD 0 "").data, x ≠ '\n'
        rw [getD_zero_eq_headD]
        exact pySplit_headD_no_sep (pyLstrip ((pySplit output NUL 6).getD 6 "")) '\n' 0
    · simp only [git_show_parse, if_pos h7, if_neg h2] at hok
      exact Except.noConfusion hok
  · simp only [git_show_parse, if_neg h7] at hok
    exact Except.noConfusion hok

/-- Witness for C10, on a concrete accepted detail output whose raw diff
payload carries a trailing newline. -/
theorem c10_diff_short_stat_invariants_witness :
    pyStrip (CommitDetails.mk "h" "d" "an" "ae" "s" "b" "stat" "DIFF").diff
        = (CommitDetails.mk "h" "d" "an" "ae" "s" "b" "stat" "DIFF").diff ∧
      ∀ x ∈ (CommitDetails.mk "h" "d" "an" "ae" "s" "b" "stat" "DIFF").short_stat.data,
        x ≠ '\n' :=
  c10_diff_short_stat_invariants "h\x00d\x00an\x00ae\x00s\x00b\x00stat\nDIFF\x0a"
    ⟨"h", "d", "an", "ae", "s", "b", "stat", "DIFF"⟩ (by decide)
